import Mathlib

/-!
Verification of the link-resolution and note-identity subsystem of
rgb-obsidian-to-org (`src/main.py`), shallowly embedded in Lean.

Paths are modelled as lists of segments (pathlib `PurePath.parts` of the
vault-relative path); file contents and strings are Lean `String`s; the
output filesystem is an association list from path strings to contents.
Fallible code returns `Except ConvError`.  The external Markdown→Org body
conversion (pypandoc) is the spec's black-box `convert` collaborator and is
passed in as a function parameter; the on-disk pandoc cache is an
out-of-scope optimization and is not modelled.
-/

namespace ObsidianToOrg

/-! ### Character utilities (ASCII model of python-slugify / str.split) -/

/-- ASCII alphanumeric characters, the characters kept by python-slugify's
disallowed-character pattern (non-alphanumeric runs become the separator). -/
def keepChar (c : Char) : Bool :=
  decide ((97 ≤ c.toNat ∧ c.toNat ≤ 122) ∨ (65 ≤ c.toNat ∧ c.toNat ≤ 90) ∨
    (48 ≤ c.toNat ∧ c.toNat ≤ 57))

/-- Per-character step of slugification: ASCII alphanumerics are lowercased,
every other character becomes the separator placeholder. -/
def slugMap (c : Char) : Char :=
  if keepChar c then c.toLower else '_'

/-- Split a character list at every occurrence of `sep`, keeping empty
pieces, like Python `str.split`. The result is always nonempty. -/
def splitOnChar (sep : Char) : List Char → List (List Char)
  | [] => [[]]
  | c :: cs =>
    match splitOnChar sep cs with
    | [] => [[]]
    | w :: ws => if c = sep then [] :: w :: ws else (c :: w) :: ws

/-- Join character lists with a single separator character between them. -/
def joinSep (sep : Char) : List (List Char) → List Char
  | [] => []
  | [w] => w
  | w :: ws => w ++ sep :: joinSep sep ws

/-- Model of `slugify(text, separator="_")` (python-slugify) restricted to
ASCII: lowercase, collapse every run of non-alphanumeric characters into a
single underscore, and strip separators from both ends.  (Unicode
transliteration is out of scope of the claims.) -/
def slugify (s : String) : String :=
  String.mk (joinSep '_'
    ((splitOnChar '_' (s.data.map slugMap)).filter (fun w => !w.isEmpty)))

/-- Is `sub` a contiguous substring, like Python `sub in s`. -/
def strContains (sub : List Char) : List Char → Bool
  | [] => sub.isEmpty
  | c :: t => sub.isPrefixOf (c :: t) || strContains sub t

/-- Python `str.startswith("_")`: the reserved exclusion marker. -/
def startsWithMarker (s : String) : Bool :=
  match s.data with
  | c :: _ => c == '_'
  | [] => false

/-! ### Path utilities (pathlib model) -/

/-- Model of `PurePath.stem`: the final component without its last suffix.  pathlib
takes the suffix at the last dot only when that dot is neither the first nor
the last character of the name. -/
def stemOfName (s : String) : String :=
  match s.data.reverse.findIdx? (fun c => c == '.') with
  | none => s
  | some j =>
    let i := s.data.length - 1 - j
    if 0 < i ∧ i < s.data.length - 1 then String.mk (s.data.take i) else s

/-- Model of `PurePath.suffix`: the extension of the final component, including the
dot, or `""` when there is none (same dot rule as `stemOfName`). -/
def suffixOfName (s : String) : String :=
  match s.data.reverse.findIdx? (fun c => c == '.') with
  | none => ""
  | some j =>
    let i := s.data.length - 1 - j
    if 0 < i ∧ i < s.data.length - 1 then String.mk (s.data.drop i) else ""

/-- Python `requested_link.split("/")[-1]`: the final path segment. -/
def baseOf (s : String) : String :=
  String.mk ((splitOnChar '/' s.data).getLastD [])

/-- Model of `Path(s).parts` for a relative path: pathlib drops empty segments and
single-dot segments when parsing. -/
def normSegs (s : String) : List String :=
  ((splitOnChar '/' s.data).map String.mk).filter (fun seg => seg != "" && seg != ".")

/-- Model of `str(Path(...))` from parts; pathlib renders the empty relative path as
`"."`. -/
def pathToString (segs : List String) : String :=
  if segs.isEmpty then "." else String.intercalate "/" segs

/-- String form of a path given by segments (used for the `str(path)`
substring test in `main`). -/
def pathStr (segs : List String) : String :=
  String.intercalate "/" segs

/-! ### Timestamps and `strftime` -/

/-- A parsed `metadata["created"]` value.  YAML frontmatter parses timestamps
into `datetime` objects, whose fields are bounded (year at most 9999, the
calendar fields far below 100); the bounds make the fixed-width `strftime`
rendering below faithful. -/
structure Timestamp where
  year : Nat
  month : Nat
  day : Nat
  hour : Nat
  minute : Nat
  second : Nat
  wf : year < 10000 ∧ month < 100 ∧ day < 100 ∧ hour < 100 ∧ minute < 100 ∧ second < 100

/-- Two-digit zero-padded decimal rendering (strftime `%m`, `%d`, …). -/
def pad2 (n : Nat) : List Char :=
  [Nat.digitChar (n / 10 % 10), Nat.digitChar (n % 10)]

/-- Four-digit zero-padded decimal rendering (strftime `%Y`). -/
def pad4 (n : Nat) : List Char :=
  [Nat.digitChar (n / 1000 % 10), Nat.digitChar (n / 100 % 10),
   Nat.digitChar (n / 10 % 10), Nat.digitChar (n % 10)]

/-- Model of `created.strftime("%Y%m%d%H%M%S")`. -/
def strftime14 (t : Timestamp) : List Char :=
  pad4 t.year ++ pad2 t.month ++ pad2 t.day ++ pad2 t.hour ++ pad2 t.minute ++ pad2 t.second

/-! ### Errors -/

/-- Per-note render failures of the spec's taxonomy: `AmbiguousStem` is the
`ValueError` raised by `VaultConverter.from_stem`, `MissingTimestamp` is the
failure of `NoteConverter.org_path` when `metadata["created"]` is absent. -/
inductive ConvError where
  | ambiguousStem
  | missingTimestamp
deriving DecidableEq

/-! ### NoteConverter (src/main.py lines 47-132) -/

/-- One discovered note.  `source` is the source file's path relative to the
vault root (`source.relative_to(input_dir)` in the code); `title_meta` and
`created` are the parsed frontmatter fields used by the converter, and
`content` is the Markdown body after the frontmatter. -/
structure NoteConverter where
  input_dir : String
  output_dir : String
  source : List String
  title_meta : Option String
  created : Option Timestamp
  content : String

/-- Property `self.source.stem`. -/
def NoteConverter.stem (n : NoteConverter) : String :=
  stemOfName (n.source.getLastD "")

/-- Field `self.slug = slugify(self.source.stem, separator="_")` (post-init). -/
def NoteConverter.slug (n : NoteConverter) : String :=
  slugify n.stem

/-- Property `org_id`: the slug. -/
def NoteConverter.org_id (n : NoteConverter) : String :=
  n.slug

/-- Property `title`: the frontmatter title when truthy (Python `if title :=
self.md_note.get("title")`), otherwise the source stem. -/
def NoteConverter.title (n : NoteConverter) : String :=
  match n.title_meta with
  | some t => if t == "" then n.stem else t
  | none => n.stem

/-- Property `org_path`: `created.strftime("%Y%m%d%H%M%S")` followed by a
hyphen, the slug and `.org`.  A missing `created` key raises (`KeyError`),
the spec's `MissingTimestamp`. -/
def NoteConverter.org_path (n : NoteConverter) : Except ConvError String :=
  match n.created with
  | none => .error .missingTimestamp
  | some ts => .ok (String.mk (strftime14 ts ++ '-' :: (n.slug.data ++ ".org".data)))

/-- Method `get_org_roam_link`: an id cross-reference, display text defaulting to
the note title when the caller passed `None`. -/
def NoteConverter.get_org_roam_link (n : NoteConverter) (link_text : Option String) : String :=
  "[[id:" ++ n.org_id ++ "][" ++ (match link_text with | some t => t | none => n.title) ++ "]]"

/-- Method `get_org_meta`: title plus the filetags derived from the first component
of the vault-relative source path. -/
def NoteConverter.get_org_meta (n : NoteConverter) : List (String × String) :=
  [("title", n.title), ("filetags", ":" ++ n.source.headD "" ++ ":")]

/-- Method `as_org`: the property block with the org id, the `#+key: value`
metadata lines, a blank line and the converted body.  `convert` is the
black-box pandoc call of `org_content`. -/
def NoteConverter.as_org (n : NoteConverter) (convert : String → String) : String :=
  ":PROPERTIES:\n:ID: " ++ n.org_id ++ "\n:END:\n" ++
    String.intercalate "\n" (n.get_org_meta.map (fun kv => "#+" ++ kv.1 ++ ": " ++ kv.2)) ++
    "\n\n" ++ convert n.content

/-! ### Output filesystem model -/

/-- The output tree (and, separately instantiated, the source tree): an
association list from path strings to file contents; `lookup` finds the most
recent write, so prepending models `write_text`/`shutil.copy`. -/
abbrev Fs := List (String × String)

/-- Write (or overwrite) one file. -/
def Fs.write (fs : Fs) (p c : String) : Fs :=
  (p, c) :: fs

/-! ### VaultConverter (src/main.py lines 139-192) -/

/-- The vault index: notes and assets keyed by vault-relative path
(`vault_map` / `asset_map` in the code; asset values are the absolute source
locations, rendered as strings). -/
structure VaultConverter where
  vault_map : List (List String × NoteConverter)
  asset_map : List (List String × String)
  output_dir : String

/-- The `matches` list of `from_stem`: entries of `vault_map` whose key's
filename stem equals the queried stem (raw `path.stem`, not normalized). -/
def VaultConverter.stemMatches (vc : VaultConverter) (stem : String) :
    List (List String × NoteConverter) :=
  vc.vault_map.filter (fun e => stemOfName (e.1.getLastD "") == stem)

/-- Method `from_stem`: `None` on zero matches, the match's note on exactly one
(`self.vault_map[matches[0]]` — dict iteration pairs each key with its
value), and `ValueError` (AmbiguousStem) on more than one. -/
def VaultConverter.from_stem (vc : VaultConverter) (stem : String) :
    Except ConvError (Option NoteConverter) :=
  match vc.stemMatches stem with
  | [] => .ok none
  | [m] => .ok (some m.2)
  | _ => .error .ambiguousStem

/-- Method `ensure_link`: resolve a requested link against the vault.  `srcFs` is
the source tree read by `shutil.copy`, `fs` the output tree; the result is
the replacement text together with the possibly-updated output tree.
`mkdir(parents=True, exist_ok=True)` has no effect in the path-keyed
filesystem model. -/
def VaultConverter.ensure_link (vc : VaultConverter) (srcFs : Fs) (fs : Fs)
    (requested_link : String) (link_text : Option String) :
    Except ConvError (String × Fs) := do
  let base := baseOf requested_link
  match ← vc.from_stem base with
  | some note => return (note.get_org_roam_link link_text, fs)
  | none =>
    let link_path := normSegs requested_link
    match vc.asset_map.lookup link_path with
    | some asset_path =>
      let output_path := vc.output_dir ++ "/" ++ pathToString link_path
      if (fs.lookup output_path).isSome then
        return ("[[" ++ pathToString link_path ++ "]]", fs)
      else
        return ("[[" ++ pathToString link_path ++ "]]",
          fs.write output_path ((srcFs.lookup asset_path).getD ""))
    | none =>
      match link_text with
      | some t =>
        if t == "" then return ("/" ++ requested_link ++ "/", fs)
        else return ("/" ++ t ++ "/", fs)
      | none => return ("/" ++ requested_link ++ "/", fs)

/-! ### Per-note link rewriting (src/main.py lines 259-290) -/

/-- Function `find_link` inside `process_note`: resolve the matched link and keep the
original matched text when the resolution is falsy (the empty string). -/
def find_link (vc : VaultConverter) (srcFs : Fs) (fs : Fs)
    (link : List Char) (title : Option (List Char)) (fallback : List Char) :
    Except ConvError (List Char × Fs) := do
  let (s, fs') ← vc.ensure_link srcFs fs (String.mk link) (title.map String.mk)
  if s == "" then return (fallback, fs') else return (s.data, fs')

/-- Split at the first `]`, returning the characters before it and the
remainder after it (the lazy `[^\]]+?` followed by a literal `]`). -/
def splitAtRB : List Char → Option (List Char × List Char)
  | [] => none
  | c :: cs =>
    if c == ']' then some ([], cs)
    else
      match splitAtRB cs with
      | none => none
      | some (a, b) => some (c :: a, b)

/-- One attempted match of the ORG_LINK regex at the head of the input:
`[[file:LINK]]` or `[[file:LINK][TITLE]]` with LINK and TITLE nonempty and
free of `]`.  Returns the link, the optional title, the full matched text
and the rest of the input.  Mirrors the regex including the backtracking on
the optional title group. -/
def tryMatchLink (l : List Char) : Option (List Char × Option (List Char) × List Char × List Char) :=
  match l with
  | '[' :: '[' :: 'f' :: 'i' :: 'l' :: 'e' :: ':' :: r =>
    match splitAtRB r with
    | none => none
    | some (link, r2) =>
      if link.isEmpty then none
      else
        match r2 with
        | ']' :: rest => some (link, none, "[[file:".data ++ link ++ [']', ']'], rest)
        | '[' :: r3 =>
          match splitAtRB r3 with
          | none => none
          | some (title, r4) =>
            if title.isEmpty then none
            else
              match r4 with
              | ']' :: rest =>
                some (link, some title,
                  "[[file:".data ++ link ++ [']', '['] ++ title ++ [']', ']'], rest)
              | _ => none
        | _ => none
  | _ => none

/-- Fuel-driven left-to-right single-pass substitution of the ORG_LINK regex
(`org_link.sub(find_link, org_content)`): substituted text is not rescanned,
and the first raised per-note failure aborts the whole substitution, as an
exception escaping `re.sub` does. -/
def org_link_sub_go (vc : VaultConverter) (srcFs : Fs) :
    Nat → List Char → Fs → Except ConvError (List Char × Fs)
  | 0, l, fs => .ok (l, fs)
  | fuel + 1, l, fs =>
    match l with
    | [] => .ok ([], fs)
    | c :: cs =>
      match tryMatchLink (c :: cs) with
      | some (link, title, matched, rest) => do
        let (rep, fs') ← find_link vc srcFs fs link title matched
        let (tail, fs'') ← org_link_sub_go vc srcFs fuel rest fs'
        return (rep ++ tail, fs'')
      | none => do
        let (tail, fs') ← org_link_sub_go vc srcFs fuel cs fs
        return (c :: tail, fs')

/-- Model of `org_link.sub(find_link, org_content)`; the input length bounds the
number of scan steps, so the fuel is never exhausted. -/
def org_link_sub (vc : VaultConverter) (srcFs : Fs) (l : List Char) (fs : Fs) :
    Except ConvError (List Char × Fs) :=
  org_link_sub_go vc srcFs l.length l fs

/-- Function `process_note`: compute the output path (this is where a missing
timestamp raises), assemble the org text, rewrite its links, and write the
result into the output tree.  There is no exception handling here: any
`ConvError` escapes to the caller. -/
def process_note (convert : String → String) (vc : VaultConverter) (srcFs : Fs)
    (n : NoteConverter) (fs : Fs) : Except ConvError Fs := do
  let name ← n.org_path
  let org_path := vc.output_dir ++ "/" ++ name
  let org_content := n.as_org convert
  let (content, fs') ← org_link_sub vc srcFs org_content.data fs
  return fs'.write org_path (String.mk content)

/-- One worker task of `pool.map(process_note, ...)`: run `process_note` on
one note against the shared output tree, keeping the tree unchanged when the
note's render raises (a `MissingTimestamp` raises before any write; a
failing note's own pre-raise asset copies are not modelled, and no claim
depends on them) and recording the first raised exception, as CPython's
`MapResult` stores only the first error. -/
def runBatchStep (convert : String → String) (vc : VaultConverter) (srcFs : Fs)
    (acc : Fs × Option ConvError) (n : NoteConverter) : Fs × Option ConvError :=
  match process_note convert vc srcFs n acc.1 with
  | .ok fs' => (fs', acc.2)
  | .error e => (acc.1, some (acc.2.getD e))

/-- The render phase of `main`: `pool.map(process_note, ...)` over the
values of `vault_map`.  `Pool.map` submits every note and waits for all
tasks to finish — `MapResult` signals readiness only once all chunks are
done — so every worker runs to completion and its writes land on the shared
output tree regardless of other workers' failures.  The accumulator holds
the shared output tree and the first stored exception. -/
def runBatchAcc (convert : String → String) (vc : VaultConverter) (srcFs : Fs)
    (fs : Fs) : Fs × Option ConvError :=
  (vc.vault_map.map Prod.snd).foldl (runBatchStep convert vc srcFs) (fs, none)

/-- The shared output tree after `pool.map` has finished: all notes have
been processed, whether or not some of them failed. -/
def runBatchFs (convert : String → String) (vc : VaultConverter) (srcFs : Fs)
    (fs : Fs) : Fs :=
  (runBatchAcc convert vc srcFs fs).1

/-- The render phase's overall outcome: after all tasks have finished,
`pool.map` re-raises the first stored worker exception in the parent (so the
run exits with it), and returns normally otherwise. -/
def runBatch (convert : String → String) (vc : VaultConverter) (srcFs : Fs)
    (fs : Fs) : Except ConvError Fs :=
  match (runBatchAcc convert vc srcFs fs).2 with
  | some e => .error e
  | none => .ok (runBatchAcc convert vc srcFs fs).1

/-! ### Discovery (src/main.py lines 226-248) -/

def CONTENT_SUFFIXES : List String := [".md"]

def ASSET_SUFFIXES : List String := [".jpg", ".png"]

/-- One iteration of the discovery loop of `main`, accumulating the index
keys (vault-relative paths) of assets and notes.  The glob pattern
`**/*.*` only yields names containing a dot; assets are indexed with no
exclusion checks, while content files are subject to the three exclusion
rules (parent-directory marker, own-stem marker, `/config/` in the absolute
path string). -/
def discoverStep (input_dir : List String) (maps : List (List String) × List (List String))
    (path : List String) : List (List String) × List (List String) :=
  let name := path.getLastD ""
  if !(name.data.contains '.') then maps
  else
    let (assets, notes) := maps
    if ASSET_SUFFIXES.contains (suffixOfName name) then (assets ++ [path], notes)
    else if CONTENT_SUFFIXES.contains (suffixOfName name) then
      let full := input_dir ++ path
      if startsWithMarker (stemOfName (full.dropLast.getLastD "")) then maps
      else if startsWithMarker (stemOfName name) then maps
      else if strContains "/config/".data (pathStr full).data then maps
      else (assets, notes ++ [path])
    else maps

/-- The discovery loop of `main`: classify every file under the input tree
into the asset index and the note index.  `input_dir` and the files are
given as path-segment lists (files relative to the vault root). -/
def discover (input_dir : List String) (files : List (List String)) :
    List (List String) × List (List String) :=
  files.foldl (discoverStep input_dir) ([], [])

/-! ### Spec-side predicates -/

/-- The character class `[a-z0-9_]` of the spec's output-filename pattern. -/
def isSlugChar (c : Char) : Bool :=
  decide ((97 ≤ c.toNat ∧ c.toNat ≤ 122) ∨ (48 ≤ c.toNat ∧ c.toNat ≤ 57) ∨ c.toNat = 95)

/-- Decision procedure for the spec's output-filename pattern
`^\d{14}-[a-z0-9_]+\.org$` (with `requireSlug = true`) or its relaxation
`^\d{14}-[a-z0-9_]*\.org$` (with `requireSlug = false`): fourteen digits, a
hyphen, slug characters, then the literal `.org`. -/
def matchesNamePat (requireSlug : Bool) (s : String) : Bool :=
  decide ((s.data.take 14).length = 14) && (s.data.take 14).all Char.isDigit &&
    match s.data.drop 14 with
    | c :: r =>
      c == '-' &&
        (decide (4 ≤ r.length) && (!requireSlug || decide (5 ≤ r.length)) &&
         (r.take (r.length - 4)).all isSlugChar &&
         decide (r.drop (r.length - 4) = ".org".data))
    | [] => false

/-! ### Concrete instances used by witnesses and counterexamples -/

/-- A concrete valid timestamp, 2024-01-02 03:04:05. -/
def tsW : Timestamp := ⟨2024, 1, 2, 3, 4, 5, by decide⟩

/-- A concrete healthy note with stem `foo` and a title. -/
def noteFooW : NoteConverter :=
  { input_dir := "vault", output_dir := "out", source := ["notes", "foo.md"],
    title_meta := some "My Foo", created := some tsW, content := "body" }

/-- A note whose frontmatter has no `created` timestamp. -/
def noteNoTsW : NoteConverter :=
  { input_dir := "vault", output_dir := "out", source := ["notes", "bad.md"],
    title_meta := none, created := none, content := "x" }

/-- A note whose stem `---` contains no alphanumeric character. -/
def noteSymW : NoteConverter :=
  { input_dir := "vault", output_dir := "out", source := ["---.md"],
    title_meta := none, created := some tsW, content := "" }

/-- A note with raw stem `A b` (normalized stem `a_b`). -/
def noteAbW : NoteConverter :=
  { input_dir := "vault", output_dir := "out", source := ["A b.md"],
    title_meta := none, created := some tsW, content := "" }

/-- A note with raw stem `a_b` (normalized stem `a_b` as well). -/
def noteUnderW : NoteConverter :=
  { input_dir := "vault", output_dir := "out", source := ["a_b.md"],
    title_meta := none, created := some tsW, content := "" }

/-- A note whose frontmatter title is present but falsy (empty string). -/
def noteEmptyTitleW : NoteConverter :=
  { input_dir := "vault", output_dir := "out", source := ["notes", "foo.md"],
    title_meta := some "", created := some tsW, content := "" }

/-- A vault with one note (`foo`) and one asset (`images/pic.png`). -/
def vcNoteW : VaultConverter :=
  { vault_map := [(["notes", "foo.md"], noteFooW)],
    asset_map := [(["images", "pic.png"], "vault/images/pic.png")],
    output_dir := "out" }

/-- An empty vault. -/
def vcEmptyW : VaultConverter :=
  { vault_map := [], asset_map := [], output_dir := "out" }

/-- A vault with two distinct raw stems sharing one normalized stem. -/
def vcStemW : VaultConverter :=
  { vault_map := [(["A b.md"], noteAbW), (["a_b.md"], noteUnderW)],
    asset_map := [], output_dir := "out" }

/-- A vault whose first note lacks a timestamp and whose second is healthy. -/
def vcBatchW : VaultConverter :=
  { vault_map := [(["notes", "bad.md"], noteNoTsW), (["notes", "foo.md"], noteFooW)],
    asset_map := [], output_dir := "out" }

/-- The source tree holding the asset bytes for `images/pic.png`. -/
def srcFsW : Fs := [("vault/images/pic.png", "PNGDATA")]

/-- Input files for the discovery examples: a regular note, a note in a
marker directory, a marker-stem note, a note under `config`, and an asset
inside a marker directory. -/
def filesW : List (List String) :=
  [["notes", "foo.md"], ["_meta", "x.md"], ["notes", "_hidden.md"],
   ["config", "y.md"], ["_imgs", "pic.png"]]

/-! ## Theorems -/

/-! ### Character lemmas -/

theorem toNat_ofNat_valid {m : Nat} (h : m.isValidChar) : (Char.ofNat m).toNat = m := by
  rw [Char.ofNat, dif_pos h]
  rfl

theorem toLower_toNat_of_upper {c : Char} (h1 : 65 ≤ c.toNat) (h2 : c.toNat ≤ 90) :
    (c.toLower).toNat = c.toNat + 32 := by
  unfold Char.toLower
  rw [if_pos ⟨h1, h2⟩]
  exact toNat_ofNat_valid (Or.inl (by omega))

theorem toLower_of_not_upper {c : Char} (h : ¬ (65 ≤ c.toNat ∧ c.toNat ≤ 90)) :
    c.toLower = c := by
  unfold Char.toLower
  rw [if_neg h]

theorem slugMap_cases (c : Char) :
    slugMap c = '_' ∨
      ((97 ≤ (slugMap c).toNat ∧ (slugMap c).toNat ≤ 122) ∨
        (48 ≤ (slugMap c).toNat ∧ (slugMap c).toNat ≤ 57)) := by
  unfold slugMap
  by_cases hk : keepChar c = true
  · rw [if_pos hk]
    simp only [keepChar, decide_eq_true_eq] at hk
    right
    rcases hk with ⟨h1, h2⟩ | ⟨h1, h2⟩ | ⟨h1, h2⟩
    · rw [toLower_of_not_upper (by omega)]
      exact Or.inl ⟨h1, h2⟩
    · left
      rw [toLower_toNat_of_upper h1 h2]
      omega
    · rw [toLower_of_not_upper (by omega)]
      exact Or.inr ⟨h1, h2⟩
  · rw [if_neg hk]
    exact Or.inl rfl

theorem slugMap_fixed {c : Char} (h : slugMap c ≠ '_') : slugMap (slugMap c) = slugMap c := by
  rcases slugMap_cases c with h' | h'
  · exact absurd h' h
  · have hk : keepChar (slugMap c) = true := by
      simp only [keepChar, decide_eq_true_eq]
      rcases h' with ⟨h1, h2⟩ | ⟨h1, h2⟩
      · exact Or.inl ⟨h1, h2⟩
      · exact Or.inr (Or.inr ⟨h1, h2⟩)
    show (if keepChar (slugMap c) = true then (slugMap c).toLower else '_') = slugMap c
    rw [if_pos hk]
    rcases h' with ⟨h1, h2⟩ | ⟨h1, h2⟩ <;> exact toLower_of_not_upper (by omega)

/-! ### splitOnChar / joinSep lemmas -/

theorem splitOnChar_ne_nil (sep : Char) (l : List Char) : splitOnChar sep l ≠ [] := by
  induction l with
  | nil => simp [splitOnChar]
  | cons c cs ih =>
    cases h : splitOnChar sep cs with
    | nil => exact absurd h ih
    | cons w ws =>
      by_cases hc : c = sep <;> simp [splitOnChar, h, hc]

theorem mem_splitOnChar {sep : Char} {l w : List Char}
    (hw : w ∈ splitOnChar sep l) : sep ∉ w ∧ ∀ c ∈ w, c ∈ l := by
  induction l generalizing w with
  | nil =>
    simp only [splitOnChar, List.mem_singleton] at hw
    subst hw
    simp
  | cons c cs ih =>
    cases h : splitOnChar sep cs with
    | nil => exact absurd h (splitOnChar_ne_nil sep cs)
    | cons w0 ws =>
      by_cases hc : c = sep
      · rw [show splitOnChar sep (c :: cs) = if c = sep then [] :: w0 :: ws else (c :: w0) :: ws
            from by simp [splitOnChar, h], if_pos hc] at hw
        rcases List.mem_cons.mp hw with h1 | h1
        · subst h1; simp
        · obtain ⟨ha, hb⟩ := ih (h ▸ h1)
          exact ⟨ha, fun x hx => List.mem_cons_of_mem c (hb x hx)⟩
      · rw [show splitOnChar sep (c :: cs) = if c = sep then [] :: w0 :: ws else (c :: w0) :: ws
            from by simp [splitOnChar, h], if_neg hc] at hw
        rcases List.mem_cons.mp hw with h1 | h1
        · subst h1
          have hw0 : w0 ∈ splitOnChar sep cs := h ▸ List.mem_cons_self w0 ws
          obtain ⟨ha, hb⟩ := ih hw0
          constructor
          · intro hmem
            rcases List.mem_cons.mp hmem with h2 | h2
            · exact hc h2.symm
            · exact ha h2
          · intro x hx
            rcases List.mem_cons.mp hx with h2 | h2
            · exact h2 ▸ List.mem_cons_self c cs
            · exact List.mem_cons_of_mem c (hb x h2)
        · have hw' : w ∈ splitOnChar sep cs := h ▸ List.mem_cons_of_mem w0 h1
          obtain ⟨ha, hb⟩ := ih hw'
          exact ⟨ha, fun x hx => List.mem_cons_of_mem c (hb x hx)⟩

theorem splitOnChar_append {sep : Char} {w l h0 : List Char} {t : List (List Char)}
    (hw : sep ∉ w) (h : splitOnChar sep l = h0 :: t) :
    splitOnChar sep (w ++ l) = (w ++ h0) :: t := by
  induction w with
  | nil => simpa using h
  | cons c w' ih =>
    have hc : ¬ c = sep := fun hcs => hw (hcs ▸ List.mem_cons_self c w')
    have ih' := ih (fun hmem => hw (List.mem_cons_of_mem c hmem))
    simp [splitOnChar, ih', hc]

theorem splitOnChar_joinSep {sep : Char} {ws : List (List Char)}
    (hne : ws ≠ []) (hsep : ∀ w ∈ ws, sep ∉ w) :
    splitOnChar sep (joinSep sep ws) = ws := by
  induction ws with
  | nil => exact absurd rfl hne
  | cons w rest ih =>
    cases rest with
    | nil =>
      have h0 : splitOnChar sep ([] : List Char) = [[]] := rfl
      have := splitOnChar_append (hsep w (by simp)) h0
      simpa using this
    | cons w' rest' =>
      have hx : splitOnChar sep (joinSep sep (w' :: rest')) = w' :: rest' :=
        ih (by simp) (fun u hu => hsep u (List.mem_cons_of_mem _ hu))
      have hs : splitOnChar sep (sep :: joinSep sep (w' :: rest')) = [] :: w' :: rest' := by
        simp [splitOnChar, hx]
      have hJ : joinSep sep (w :: w' :: rest') = w ++ sep :: joinSep sep (w' :: rest') := rfl
      rw [hJ, splitOnChar_append (hsep w (by simp)) hs]
      simp

theorem map_joinSep (f : Char → Char) (sep : Char) (ws : List (List Char)) :
    (joinSep sep ws).map f = joinSep (f sep) (ws.map (List.map f)) := by
  induction ws with
  | nil => rfl
  | cons w rest ih =>
    cases rest with
    | nil => rfl
    | cons w' rest' =>
      show (w ++ sep :: joinSep sep (w' :: rest')).map f = _
      rw [List.map_append]
      simp only [List.map_cons]
      rw [ih]
      rfl

theorem mem_joinSep {sep c : Char} {ws : List (List Char)} (h : c ∈ joinSep sep ws) :
    c = sep ∨ ∃ w ∈ ws, c ∈ w := by
  induction ws with
  | nil => simp [joinSep] at h
  | cons w rest ih =>
    cases rest with
    | nil =>
      right
      exact ⟨w, by simp, by simpa [joinSep] using h⟩
    | cons w' rest' =>
      rw [show joinSep sep (w :: w' :: rest') = w ++ sep :: joinSep sep (w' :: rest') from rfl] at h
      rcases List.mem_append.mp h with h1 | h1
      · right; exact ⟨w, by simp, h1⟩
      · rcases List.mem_cons.mp h1 with h2 | h2
        · exact Or.inl h2
        · rcases ih h2 with h3 | ⟨u, hu, hcu⟩
          · exact Or.inl h3
          · right; exact ⟨u, List.mem_cons_of_mem _ hu, hcu⟩

theorem map_eq_self_of_fixed {f : Char → Char} {l : List Char} (h : ∀ c ∈ l, f c = c) :
    l.map f = l := by
  induction l with
  | nil => rfl
  | cons c cs ih =>
    rw [List.map_cons, h c (List.mem_cons_self c cs),
      ih (fun x hx => h x (List.mem_cons_of_mem _ hx))]

theorem map_map_eq_self {ws : List (List Char)}
    (h : ∀ w ∈ ws, ∀ c ∈ w, slugMap c = c) : ws.map (List.map slugMap) = ws := by
  induction ws with
  | nil => rfl
  | cons w rest ih =>
    rw [List.map_cons, map_eq_self_of_fixed (h w (List.mem_cons_self w rest)),
      ih (fun u hu c hc => h u (List.mem_cons_of_mem _ hu) c hc)]

/-! ### Characterization of slugify output -/

theorem slugify_words {s : String} :
    ∀ w ∈ (splitOnChar '_' (s.data.map slugMap)).filter (fun w => !w.isEmpty),
      w ≠ [] ∧ '_' ∉ w ∧ ∀ c ∈ w, slugMap c = c := by
  intro w hw
  rw [List.mem_filter] at hw
  obtain ⟨hw1, hw2⟩ := hw
  have hne : w ≠ [] := by simpa using hw2
  obtain ⟨hsep, hmem⟩ := mem_splitOnChar hw1
  refine ⟨hne, hsep, ?_⟩
  intro c hc
  have hcm := hmem c hc
  rw [List.mem_map] at hcm
  obtain ⟨c', _, hc'⟩ := hcm
  have hcne : c ≠ '_' := fun he => hsep (he ▸ hc)
  subst hc'
  exact slugMap_fixed hcne

/-- C8: identifier normalization is idempotent — applying the
stem-normalization function (`slugify(_, separator="_")`: lowercase ASCII,
non-alphanumeric runs collapsed to a single underscore, separators stripped
at the ends) twice yields the same result as applying it once, for every
input string. -/
theorem slugify_idempotent (s : String) : slugify (slugify s) = slugify s := by
  have hw := slugify_words (s := s)
  generalize hws : (splitOnChar '_' (s.data.map slugMap)).filter (fun w => !w.isEmpty) = ws at hw
  have hs : slugify s = String.mk (joinSep '_' ws) := by
    unfold slugify
    rw [hws]
  rw [hs]
  show slugify (String.mk (joinSep '_' ws)) = String.mk (joinSep '_' ws)
  unfold slugify
  have hd : (String.mk (joinSep '_' ws)).data = joinSep '_' ws := rfl
  rw [hd, map_joinSep]
  have h1 : slugMap '_' = '_' := by decide
  have h2 : ws.map (List.map slugMap) = ws := map_map_eq_self (fun w hw' c hc => (hw w hw').2.2 c hc)
  rw [h1, h2]
  cases ws with
  | nil => rfl
  | cons w rest =>
    rw [splitOnChar_joinSep (by simp) (fun u hu => (hw u hu).2.1)]
    rw [List.filter_eq_self.mpr (fun u hu => by simpa using (hw u hu).1)]

/-! ### Slug output characters, strftime digits, and the C6 filename claim -/

theorem slug_chars {s : String} {c : Char} (hc : c ∈ (slugify s).data) :
    isSlugChar c = true := by
  unfold slugify at hc
  rcases mem_joinSep hc with h | ⟨w, hw, hcw⟩
  · subst h; decide
  · obtain ⟨_, hsep, hfix⟩ := slugify_words (s := s) w hw
    have h1 : slugMap c = c := hfix c hcw
    have h2 : c ≠ '_' := fun he => hsep (he ▸ hcw)
    rcases slugMap_cases c with h3 | h3
    · exact absurd (h1 ▸ h3) h2
    · rw [h1] at h3
      simp only [isSlugChar, decide_eq_true_eq]
      rcases h3 with ⟨a, b⟩ | ⟨a, b⟩
      · exact Or.inl ⟨a, b⟩
      · exact Or.inr (Or.inl ⟨a, b⟩)

theorem digitChar_mod_isDigit (x : Nat) : (Nat.digitChar (x % 10)).isDigit = true := by
  have h : x % 10 < 10 := Nat.mod_lt _ (by omega)
  set m := x % 10 with hm
  interval_cases m <;> decide

theorem strftime14_length (t : Timestamp) : (strftime14 t).length = 14 := by
  simp [strftime14, pad4, pad2]

theorem strftime14_all_digits (t : Timestamp) :
    (strftime14 t).all Char.isDigit = true := by
  simp [strftime14, pad4, pad2, List.all, digitChar_mod_isDigit]

theorem matchesNamePat_mk (t : Timestamp) (slug : String)
    (hslug : ∀ c ∈ slug.data, isSlugChar c = true) (req : Bool)
    (hreq : req = true → slug.data ≠ []) :
    matchesNamePat req (String.mk (strftime14 t ++ '-' :: (slug.data ++ ".org".data))) = true := by
  have hlen := strftime14_length t
  have horg : (".org".data).length = 4 := rfl
  unfold matchesNamePat
  rw [show (String.mk (strftime14 t ++ '-' :: (slug.data ++ ".org".data))).data
      = strftime14 t ++ '-' :: (slug.data ++ ".org".data) from rfl]
  rw [← hlen, List.take_left, List.drop_left]
  rw [hlen]
  simp only []
  rw [show (slug.data ++ ".org".data).length - 4 = slug.data.length from by
    rw [List.length_append, horg]; omega]
  rw [List.take_left, List.drop_left]
  simp only [decide_eq_true_eq, Bool.and_eq_true, decide_eq_true_iff, beq_self_eq_true,
    Bool.or_eq_true, Bool.not_eq_true', List.all_eq_true, List.length_append, horg]
  refine ⟨⟨trivial, List.all_eq_true.mp (strftime14_all_digits t)⟩, trivial,
    ⟨⟨by omega, ?_⟩, hslug⟩, trivial⟩
  cases req with
  | false => exact Or.inl rfl
  | true =>
    have h5 : slug.data ≠ [] := hreq rfl
    have h6 : slug.data.length ≠ 0 := fun h0 => h5 (List.length_eq_zero.mp h0)
    right
    omega

theorem string_eq_empty_of_data {s : String} (h : s.data = []) : s = "" := by
  cases s with
  | mk d => cases h; rfl

/-- C6 (amended): `org_path` is a pure function of the note (deterministic).
For every note whose metadata contains a parseable `created` timestamp the
produced name matches `^\d{14}-[a-z0-9_]*\.org$`, and moreover matches the
spec's `^\d{14}-[a-z0-9_]+\.org$` whenever the normalized stem is nonempty
(the original `+` fails on a stem with no ASCII alphanumeric, see the
counterexample); for every note lacking the timestamp it fails with
`MissingTimestamp`. -/
theorem org_path_contract (n : NoteConverter) :
    (∀ ts, n.created = some ts →
      ∃ name, n.org_path = Except.ok name ∧ matchesNamePat false name = true ∧
        (n.slug ≠ "" → matchesNamePat true name = true)) ∧
    (n.created = none → n.org_path = Except.error ConvError.missingTimestamp) := by
  constructor
  · intro ts h
    refine ⟨String.mk (strftime14 ts ++ '-' :: (n.slug.data ++ ".org".data)), ?_, ?_, ?_⟩
    · unfold NoteConverter.org_path
      rw [h]
    · exact matchesNamePat_mk ts n.slug (fun c hc => slug_chars hc) false
        (fun hf => absurd hf (by decide))
    · intro hne
      refine matchesNamePat_mk ts n.slug (fun c hc => slug_chars hc) true (fun _ h0 => ?_)
      exact hne (string_eq_empty_of_data h0)
  · intro h
    unfold NoteConverter.org_path
    rw [h]

/-- C6 witness: the concrete note `foo` with the concrete timestamp gets a
filename of the claimed shape. -/
theorem org_path_contract_witness :
    ∃ name, noteFooW.org_path = Except.ok name ∧ matchesNamePat false name = true ∧
      (noteFooW.slug ≠ "" → matchesNamePat true name = true) :=
  (org_path_contract noteFooW).1 tsW rfl

/-- C6 counterexample: the note with stem `---` has a parseable created
timestamp, yet its output name `20240102030405-.org` has an empty identifier
part and does not match `^\d{14}-[a-z0-9_]+\.org$`. -/
theorem org_path_cex :
    noteSymW.created = some tsW ∧
    noteSymW.org_path = Except.ok "20240102030405-.org" ∧
    matchesNamePat true "20240102030405-.org" = false := by
  refine ⟨rfl, rfl, by decide⟩

/-! ### C2: stem-lookup trichotomy -/

/-- C2 (amended): the trichotomy holds for raw filename stems (exact
`path.stem` equality, not normalized stems): if two or more notes share the
queried raw stem the lookup fails with `AmbiguousStem`; if exactly one note
matches it is returned; if none match the result is absent.  (Collisions
that exist only after normalization resolve silently, see the
counterexample.) -/
theorem from_stem_trichotomy (vc : VaultConverter) (stem : String) :
    (vc.vault_map.countP (fun e => stemOfName (e.1.getLastD "") == stem) = 0 ∧
      vc.from_stem stem = Except.ok none) ∨
    (vc.vault_map.countP (fun e => stemOfName (e.1.getLastD "") == stem) = 1 ∧
      ∃ e ∈ vc.vault_map, stemOfName (e.1.getLastD "") = stem ∧
        vc.from_stem stem = Except.ok (some e.2)) ∨
    (2 ≤ vc.vault_map.countP (fun e => stemOfName (e.1.getLastD "") == stem) ∧
      vc.from_stem stem = Except.error ConvError.ambiguousStem) := by
  have hcount : vc.vault_map.countP (fun e => stemOfName (e.1.getLastD "") == stem)
      = (vc.stemMatches stem).length := by
    unfold VaultConverter.stemMatches
    exact List.countP_eq_length_filter _ _
  cases hms : vc.stemMatches stem with
  | nil =>
    left
    constructor
    · rw [hcount, hms]
      rfl
    · unfold VaultConverter.from_stem
      rw [hms]
  | cons m rest =>
    cases rest with
    | nil =>
      right; left
      have hmem : m ∈ vc.stemMatches stem := hms ▸ List.mem_cons_self m []
      refine ⟨by rw [hcount, hms]; rfl, m, (List.mem_filter.mp hmem).1,
        beq_iff_eq.mp (List.mem_filter.mp hmem).2, ?_⟩
      unfold VaultConverter.from_stem
      rw [hms]
    | cons m2 rest2 =>
      right; right
      constructor
      · rw [hcount, hms]
        simp only [List.length_cons]
        omega
      · unfold VaultConverter.from_stem
        rw [hms]

/-- C2 counterexample: the notes `A b.md` and `a_b.md` share the normalized
stem `a_b` of the queried stem `A b`, yet the lookup silently returns the
`A b` note instead of failing with `AmbiguousStem`. -/
theorem from_stem_cex :
    vcStemW.vault_map.countP
        (fun e => slugify (stemOfName (e.1.getLastD "")) == slugify "A b") = 2 ∧
    vcStemW.from_stem "A b" = Except.ok (some noteAbW) :=
  ⟨by decide, rfl⟩

/-! ### Computation lemmas for ensure_link -/

theorem exc_bind_ok {ε α β : Type} (a : α) (f : α → Except ε β) :
    (Except.ok a : Except ε α) >>= f = f a := rfl

theorem mk_data (s : String) : String.mk s.data = s := rfl

theorem ne_empty_iff_data {s : String} : s ≠ "" ↔ s.data ≠ [] := by
  constructor
  · intro h hd
    exact h (string_eq_empty_of_data hd)
  · intro h he
    apply h
    rw [he]

theorem append_right_ne_empty (a b : String) (hb : b.data ≠ []) : a ++ b ≠ "" := by
  rw [ne_empty_iff_data, String.data_append]
  intro h
  exact hb (List.append_eq_nil.mp h).2

theorem ensure_link_eq_note (vc : VaultConverter) (srcFs fs : Fs) (target : String)
    (disp : Option String) (e : List String × NoteConverter)
    (h : vc.stemMatches (baseOf target) = [e]) :
    vc.ensure_link srcFs fs target disp = Except.ok (e.2.get_org_roam_link disp, fs) := by
  have hfs : vc.from_stem (baseOf target) = Except.ok (some e.2) := by
    unfold VaultConverter.from_stem
    rw [h]
  simp only [VaultConverter.ensure_link, hfs, exc_bind_ok]
  rfl

theorem ensure_link_eq_asset_skip (vc : VaultConverter) (srcFs fs : Fs) (target : String)
    (disp : Option String) (src : String)
    (h0 : vc.stemMatches (baseOf target) = [])
    (h1 : vc.asset_map.lookup (normSegs target) = some src)
    (hex : (fs.lookup (vc.output_dir ++ "/" ++ pathToString (normSegs target))).isSome = true) :
    vc.ensure_link srcFs fs target disp =
      Except.ok ("[[" ++ pathToString (normSegs target) ++ "]]", fs) := by
  have hfs : vc.from_stem (baseOf target) = Except.ok none := by
    unfold VaultConverter.from_stem
    rw [h0]
  simp only [VaultConverter.ensure_link, hfs, exc_bind_ok, h1, hex]
  rfl

theorem ensure_link_eq_asset_copy (vc : VaultConverter) (srcFs fs : Fs) (target : String)
    (disp : Option String) (src : String)
    (h0 : vc.stemMatches (baseOf target) = [])
    (h1 : vc.asset_map.lookup (normSegs target) = some src)
    (hex : (fs.lookup (vc.output_dir ++ "/" ++ pathToString (normSegs target))).isSome = false) :
    vc.ensure_link srcFs fs target disp =
      Except.ok ("[[" ++ pathToString (normSegs target) ++ "]]",
        fs.write (vc.output_dir ++ "/" ++ pathToString (normSegs target))
          ((srcFs.lookup src).getD "")) := by
  have hfs : vc.from_stem (baseOf target) = Except.ok none := by
    unfold VaultConverter.from_stem
    rw [h0]
  simp only [VaultConverter.ensure_link, hfs, exc_bind_ok, h1, hex]
  rfl

theorem ensure_link_eq_placeholder_none (vc : VaultConverter) (srcFs fs : Fs) (target : String)
    (h0 : vc.stemMatches (baseOf target) = [])
    (h1 : vc.asset_map.lookup (normSegs target) = none) :
    vc.ensure_link srcFs fs target none = Except.ok ("/" ++ target ++ "/", fs) := by
  have hfs : vc.from_stem (baseOf target) = Except.ok none := by
    unfold VaultConverter.from_stem
    rw [h0]
  simp only [VaultConverter.ensure_link, hfs, exc_bind_ok, h1]
  rfl

theorem ensure_link_eq_placeholder_some (vc : VaultConverter) (srcFs fs : Fs) (target t : String)
    (h0 : vc.stemMatches (baseOf target) = [])
    (h1 : vc.asset_map.lookup (normSegs target) = none)
    (ht : (t == "") = false) :
    vc.ensure_link srcFs fs target (some t) = Except.ok ("/" ++ t ++ "/", fs) := by
  have hfs : vc.from_stem (baseOf target) = Except.ok none := by
    unfold VaultConverter.from_stem
    rw [h0]
  simp only [VaultConverter.ensure_link, hfs, exc_bind_ok, h1, ht]
  rfl

theorem ensure_link_eq_placeholder_some_empty (vc : VaultConverter) (srcFs fs : Fs)
    (target t : String)
    (h0 : vc.stemMatches (baseOf target) = [])
    (h1 : vc.asset_map.lookup (normSegs target) = none)
    (ht : (t == "") = true) :
    vc.ensure_link srcFs fs target (some t) = Except.ok ("/" ++ target ++ "/", fs) := by
  have hfs : vc.from_stem (baseOf target) = Except.ok none := by
    unfold VaultConverter.from_stem
    rw [h0]
  simp only [VaultConverter.ensure_link, hfs, exc_bind_ok, h1, ht]
  rfl

/-! ### C3: note-link round trip -/

/-- C3: for every link reference whose final path segment matches exactly
one note's raw stem, resolution returns `[[id:IDENT][DISPLAY]]` where IDENT
is the note's normalized stem and DISPLAY is the reference's display text if
present, else the note's truthy title metadata, else the note's stem; the
output tree is untouched. -/
theorem note_link_roundtrip (vc : VaultConverter) (srcFs fs : Fs) (target : String)
    (disp : Option String) (e : List String × NoteConverter)
    (h : vc.stemMatches (baseOf target) = [e]) :
    vc.ensure_link srcFs fs target disp =
      Except.ok ("[[id:" ++ slugify e.2.stem ++ "][" ++
        (match disp with
         | some t => t
         | none =>
           match e.2.title_meta with
           | some t => if t == "" then e.2.stem else t
           | none => e.2.stem) ++ "]]", fs) := by
  rw [ensure_link_eq_note vc srcFs fs target disp e h]
  unfold NoteConverter.get_org_roam_link NoteConverter.org_id NoteConverter.slug
    NoteConverter.title
  rfl

/-- C3 witness: `[[file:notes/foo]]`-style target `notes/foo` with a note of
stem `foo` titled `My Foo` resolves to `[[id:foo][My Foo]]`. -/
theorem note_link_roundtrip_witness :
    vcNoteW.ensure_link srcFsW [] "notes/foo" none = Except.ok ("[[id:foo][My Foo]]", []) :=
  (note_link_roundtrip vcNoteW srcFsW [] "notes/foo" none (["notes", "foo.md"], noteFooW)
    rfl).trans rfl

/-! ### C4: unresolved-link placeholder -/

/-- C4: for every link reference matching no note stem and no indexed asset
path, resolution wraps the display text (when supplied; the link grammar
only produces nonempty display text) or else the raw target in `/…/`
emphasis markers, returns normally, and leaves the output tree untouched. -/
theorem unresolved_link_placeholder (vc : VaultConverter) (srcFs fs : Fs) (target : String)
    (disp : Option String)
    (h0 : vc.stemMatches (baseOf target) = [])
    (h1 : vc.asset_map.lookup (normSegs target) = none)
    (h2 : ∀ t, disp = some t → t ≠ "") :
    vc.ensure_link srcFs fs target disp =
      Except.ok ((match disp with
        | some t => "/" ++ t ++ "/"
        | none => "/" ++ target ++ "/"), fs) := by
  cases disp with
  | none => exact ensure_link_eq_placeholder_none vc srcFs fs target h0 h1
  | some t =>
    have ht : (t == "") = false := beq_eq_false_iff_ne.mpr (h2 t rfl)
    exact ensure_link_eq_placeholder_some vc srcFs fs target t h0 h1 ht

/-- C4 witness: `[[file:nowhere][Text]]` resolves to `/Text/` against an
empty vault. -/
theorem unresolved_link_placeholder_witness :
    vcEmptyW.ensure_link [] [] "nowhere" (some "Text") = Except.ok ("/Text/", []) :=
  (unresolved_link_placeholder vcEmptyW [] [] "nowhere" (some "Text") rfl rfl
    (fun t ht => by cases ht; decide)).trans rfl

/-! ### C5: asset resolution and copy idempotence -/

/-- C5: for every link reference matching no note stem whose target is an
indexed asset path, resolution returns the plain path link `[[path]]` and
ensures the file exists at that path under the output root; resolving the
same reference again against the resulting output tree returns the same
link and leaves the tree exactly unchanged (the copy is skipped). -/
theorem asset_link_copy_idempotent (vc : VaultConverter) (srcFs fs : Fs) (target : String)
    (disp : Option String) (src : String)
    (h0 : vc.stemMatches (baseOf target) = [])
    (h1 : vc.asset_map.lookup (normSegs target) = some src) :
    ∃ fs₁,
      vc.ensure_link srcFs fs target disp =
        Except.ok ("[[" ++ pathToString (normSegs target) ++ "]]", fs₁) ∧
      (fs₁.lookup (vc.output_dir ++ "/" ++ pathToString (normSegs target))).isSome = true ∧
      vc.ensure_link srcFs fs₁ target disp =
        Except.ok ("[[" ++ pathToString (normSegs target) ++ "]]", fs₁) := by
  by_cases hex : (fs.lookup (vc.output_dir ++ "/" ++ pathToString (normSegs target))).isSome = true
  · exact ⟨fs, ensure_link_eq_asset_skip vc srcFs fs target disp src h0 h1 hex, hex,
      ensure_link_eq_asset_skip vc srcFs fs target disp src h0 h1 hex⟩
  · have hex' :
        (fs.lookup (vc.output_dir ++ "/" ++ pathToString (normSegs target))).isSome = false :=
      Bool.eq_false_iff.mpr hex
    refine ⟨fs.write (vc.output_dir ++ "/" ++ pathToString (normSegs target))
        ((srcFs.lookup src).getD ""),
      ensure_link_eq_asset_copy vc srcFs fs target disp src h0 h1 hex', ?_, ?_⟩
    · simp [Fs.write, List.lookup]
    · apply ensure_link_eq_asset_skip vc srcFs _ target disp src h0 h1
      simp [Fs.write, List.lookup]

/-- C5 witness: target `images/pic.png` resolves to `[[images/pic.png]]`
against the concrete vault, the copied file exists afterwards, and a second
resolution leaves the output tree unchanged. -/
theorem asset_link_copy_idempotent_witness :
    ∃ fs₁,
      vcNoteW.ensure_link srcFsW [] "images/pic.png" none =
        Except.ok ("[[" ++ pathToString (normSegs "images/pic.png") ++ "]]", fs₁) ∧
      (fs₁.lookup (vcNoteW.output_dir ++ "/" ++ pathToString (normSegs "images/pic.png"))).isSome
        = true ∧
      vcNoteW.ensure_link srcFsW fs₁ "images/pic.png" none =
        Except.ok ("[[" ++ pathToString (normSegs "images/pic.png") ++ "]]", fs₁) :=
  asset_link_copy_idempotent vcNoteW srcFsW [] "images/pic.png" none
    "vault/images/pic.png" rfl rfl

/-! ### C9: link-resolution totality -/

/-- C9: for every link reference with nonempty target whose stem matches at
most one note, `ensure_link` returns a non-`None`, nonempty string, so the
branch of `find_link` that restores the original matched text when the
resolution is falsy is unreachable: `find_link` always returns the
resolution. -/
theorem ensure_link_total (vc : VaultConverter) (srcFs fs : Fs) (target : String)
    (disp : Option String) (matched : List Char)
    (hne : target ≠ "")
    (hcount : (vc.stemMatches (baseOf target)).length ≤ 1) :
    ∃ s fs', vc.ensure_link srcFs fs target disp = Except.ok (s, fs') ∧ s ≠ "" ∧
      find_link vc srcFs fs target.data (disp.map String.data) matched =
        Except.ok (s.data, fs') := by
  have main : ∃ s fs', vc.ensure_link srcFs fs target disp = Except.ok (s, fs') ∧ s ≠ "" := by
    cases hms : vc.stemMatches (baseOf target) with
    | cons m rest =>
      cases rest with
      | cons m2 r2 =>
        rw [hms] at hcount
        simp at hcount
      | nil =>
        refine ⟨m.2.get_org_roam_link disp, fs,
          ensure_link_eq_note vc srcFs fs target disp m hms, ?_⟩
        unfold NoteConverter.get_org_roam_link
        exact append_right_ne_empty _ "]]" (by decide)
    | nil =>
      cases hassets : vc.asset_map.lookup (normSegs target) with
      | some src =>
        by_cases hex :
            (fs.lookup (vc.output_dir ++ "/" ++ pathToString (normSegs target))).isSome = true
        · exact ⟨_, fs, ensure_link_eq_asset_skip vc srcFs fs target disp src hms hassets hex,
            append_right_ne_empty _ "]]" (by decide)⟩
        · have hex' :
              (fs.lookup (vc.output_dir ++ "/" ++ pathToString (normSegs target))).isSome
                = false := Bool.eq_false_iff.mpr hex
          exact ⟨_, _, ensure_link_eq_asset_copy vc srcFs fs target disp src hms hassets hex',
            append_right_ne_empty _ "]]" (by decide)⟩
      | none =>
        cases disp with
        | none =>
          exact ⟨_, fs, ensure_link_eq_placeholder_none vc srcFs fs target hms hassets,
            append_right_ne_empty _ "/" (by decide)⟩
        | some t =>
          by_cases ht : (t == "") = true
          · exact ⟨_, fs,
              ensure_link_eq_placeholder_some_empty vc srcFs fs target t hms hassets ht,
              append_right_ne_empty _ "/" (by decide)⟩
          · have ht' : (t == "") = false := by simpa using ht
            exact ⟨_, fs, ensure_link_eq_placeholder_some vc srcFs fs target t hms hassets ht',
              append_right_ne_empty _ "/" (by decide)⟩
  obtain ⟨s, fs', he, hs⟩ := main
  refine ⟨s, fs', he, hs, ?_⟩
  have he' : vc.ensure_link srcFs fs (String.mk target.data)
      ((disp.map String.data).map String.mk) = Except.ok (s, fs') := by
    rw [mk_data, show (disp.map String.data).map String.mk = disp from by cases disp <;> rfl]
    exact he
  simp only [find_link, he', exc_bind_ok]
  have hsf : (s == "") = false := beq_eq_false_iff_ne.mpr hs
  simp only [hsf, Bool.false_eq_true, if_false]
  rfl

/-- C9 witness: against the empty vault, resolving target `nowhere` with no
display text yields a nonempty placeholder and `find_link` returns it, not
the fallback. -/
theorem ensure_link_total_witness :
    ∃ s fs', vcEmptyW.ensure_link [] [] "nowhere" none = Except.ok (s, fs') ∧ s ≠ "" ∧
      find_link vcEmptyW [] [] "nowhere".data ((none : Option String).map String.data) [] =
        Except.ok (s.data, fs') :=
  ensure_link_total vcEmptyW [] [] "nowhere" none [] (by decide) (by decide)

/-! ### C10: falsy title fallback -/

/-- C10: for every note whose frontmatter title is present but falsy (the
empty string), the title used everywhere — the `title` property, the
metadata block, and link display text — is the note's filename stem, exactly
as if the title key were absent. -/
theorem falsy_title_fallback (n : NoteConverter) (h : n.title_meta = some "") :
    n.title = n.stem ∧
    n.title = ({ n with title_meta := none } : NoteConverter).title ∧
    n.get_org_meta = ({ n with title_meta := none } : NoteConverter).get_org_meta ∧
    n.get_org_roam_link none = ({ n with title_meta := none } : NoteConverter).get_org_roam_link none := by
  have ht : n.title = n.stem := by
    unfold NoteConverter.title
    rw [h]
    rfl
  have ht2 : ({ n with title_meta := none } : NoteConverter).title = n.stem := rfl
  refine ⟨ht, ht.trans ht2.symm, ?_, ?_⟩
  · unfold NoteConverter.get_org_meta
    rw [ht, ht2]
  · unfold NoteConverter.get_org_roam_link
    rw [show (match (none : Option String) with
        | some t => t
        | none => n.title) = n.title from rfl, ht]
    rw [show (match (none : Option String) with
        | some t => t
        | none => ({ n with title_meta := none } : NoteConverter).title)
      = ({ n with title_meta := none } : NoteConverter).title from rfl, ht2]
    rfl

/-- C10 witness: the concrete note with `title: ""` renders with its stem
`foo` as title, identically to the same note without a title key. -/
theorem falsy_title_fallback_witness :
    noteEmptyTitleW.title = noteEmptyTitleW.stem ∧
    noteEmptyTitleW.title = ({ noteEmptyTitleW with title_meta := none } : NoteConverter).title ∧
    noteEmptyTitleW.get_org_meta
      = ({ noteEmptyTitleW with title_meta := none } : NoteConverter).get_org_meta ∧
    noteEmptyTitleW.get_org_roam_link none
      = ({ noteEmptyTitleW with title_meta := none } : NoteConverter).get_org_roam_link none :=
  falsy_title_fallback noteEmptyTitleW rfl

/-! ### C1: per-note failures abort the batch -/

theorem exc_bind_error {ε α β : Type} (e : ε) (f : α → Except ε β) :
    (Except.error e : Except ε α) >>= f = Except.error e := rfl

theorem runBatch_fold_keeps_error (convert : String → String) (vc : VaultConverter)
    (srcFs : Fs) (notes : List NoteConverter) :
    ∀ (fs : Fs) (e : ConvError),
      (notes.foldl (runBatchStep convert vc srcFs) (fs, some e)).2 = some e := by
  induction notes with
  | nil =>
    intro fs e
    rfl
  | cons n ns ih =>
    intro fs e
    rw [List.foldl_cons]
    cases h : process_note convert vc srcFs n fs with
    | ok fs' =>
      rw [show runBatchStep convert vc srcFs (fs, some e) n = (fs', some e) from by
        unfold runBatchStep; rw [h]]
      exact ih fs' e
    | error e' =>
      rw [show runBatchStep convert vc srcFs (fs, some e) n = (fs, some e) from by
        unfold runBatchStep; rw [h]; rfl]
      exact ih fs e

theorem runBatch_fold_fs_indep (convert : String → String) (vc : VaultConverter)
    (srcFs : Fs) (notes : List NoteConverter) :
    ∀ (fs : Fs) (o1 o2 : Option ConvError),
      (notes.foldl (runBatchStep convert vc srcFs) (fs, o1)).1
        = (notes.foldl (runBatchStep convert vc srcFs) (fs, o2)).1 := by
  induction notes with
  | nil =>
    intro fs o1 o2
    rfl
  | cons n ns ih =>
    intro fs o1 o2
    rw [List.foldl_cons, List.foldl_cons]
    cases h : process_note convert vc srcFs n fs with
    | ok fs' =>
      rw [show runBatchStep convert vc srcFs (fs, o1) n = (fs', o1) from by
          unfold runBatchStep; rw [h],
        show runBatchStep convert vc srcFs (fs, o2) n = (fs', o2) from by
          unfold runBatchStep; rw [h]]
      exact ih fs' o1 o2
    | error e' =>
      rw [show runBatchStep convert vc srcFs (fs, o1) n = (fs, some (o1.getD e')) from by
          unfold runBatchStep; rw [h],
        show runBatchStep convert vc srcFs (fs, o2) n = (fs, some (o2.getD e')) from by
          unfold runBatchStep; rw [h]]
      exact ih fs (some (o1.getD e')) (some (o2.getD e'))

/-- C1 (amended): an `AmbiguousStem` or `MissingTimestamp` aborts only the
failing note's render, and every other note is still rendered and written —
`pool.map` runs all submitted tasks to completion and their writes land on
the shared output tree — but the batch as a whole does not complete: after
all tasks finish, the first per-note failure is re-raised in the parent and
the run exits with it.  Concretely, when the first note of the vault map
lacks a `created` timestamp, the run ends with `MissingTimestamp` while the
shared output tree equals the one produced by processing exactly the
sibling notes. -/
theorem runBatch_failure_isolated (convert : String → String) (vc : VaultConverter)
    (srcFs fs : Fs) (p : List String) (n : NoteConverter)
    (rest : List (List String × NoteConverter))
    (hmap : vc.vault_map = (p, n) :: rest)
    (hts : n.created = none) :
    runBatch convert vc srcFs fs = Except.error ConvError.missingTimestamp ∧
    runBatchFs convert vc srcFs fs =
      ((rest.map Prod.snd).foldl (runBatchStep convert vc srcFs) (fs, none)).1 := by
  have hop : n.org_path = Except.error ConvError.missingTimestamp := by
    unfold NoteConverter.org_path
    rw [hts]
  have hpn : process_note convert vc srcFs n fs = Except.error ConvError.missingTimestamp := by
    unfold process_note
    rw [hop, exc_bind_error]
  have hstep : runBatchStep convert vc srcFs (fs, none) n
      = (fs, some ConvError.missingTimestamp) := by
    unfold runBatchStep
    rw [hpn]
    rfl
  constructor
  · unfold runBatch runBatchAcc
    rw [hmap, List.map_cons, List.foldl_cons, hstep,
      runBatch_fold_keeps_error convert vc srcFs (rest.map Prod.snd) fs
        ConvError.missingTimestamp]
  · unfold runBatchFs runBatchAcc
    rw [hmap, List.map_cons, List.foldl_cons, hstep]
    exact runBatch_fold_fs_indep convert vc srcFs (rest.map Prod.snd) fs
      (some ConvError.missingTimestamp) none

/-- C1 witness: in the concrete two-note vault whose first note lacks a
timestamp, the run ends with `MissingTimestamp` while the output tree is the
one produced by processing just the sibling note. -/
theorem runBatch_failure_isolated_witness :
    runBatch id vcBatchW [] [] = Except.error ConvError.missingTimestamp ∧
    runBatchFs id vcBatchW [] [] =
      (([(["notes", "foo.md"], noteFooW)].map Prod.snd).foldl
        (runBatchStep id vcBatchW []) ([], none)).1 :=
  runBatch_failure_isolated id vcBatchW [] [] ["notes", "bad.md"] noteNoTsW
    [(["notes", "foo.md"], noteFooW)] rfl rfl

/-- C1 counterexample: in the concrete two-note vault whose first note lacks
a timestamp, the sibling note's file is present in the shared output tree
after the run — the other note IS rendered and written — yet `pool.map`
re-raises `MissingTimestamp`, so the batch as a whole does not complete,
refuting the claim's final conjunct. -/
theorem runBatch_cex :
    ((runBatchFs id vcBatchW [] []).lookup "out/20240102030405-foo.org").isSome = true ∧
    runBatch id vcBatchW [] [] = Except.error ConvError.missingTimestamp :=
  ⟨rfl, rfl⟩

/-! ### C7: discovery exclusion -/

theorem discoverStep_not_mem (input_dir : List String) (p f : List String)
    (acc : List (List String) × List (List String))
    (hmd : suffixOfName (p.getLastD "") = ".md")
    (hexcl : startsWithMarker (stemOfName ((input_dir ++ p).dropLast.getLastD "")) = true
      ∨ startsWithMarker (stemOfName (p.getLastD "")) = true
      ∨ strContains "/config/".data (pathStr (input_dir ++ p)).data = true)
    (h1 : p ∉ acc.1) (h2 : p ∉ acc.2) :
    p ∉ (discoverStep input_dir acc f).1 ∧ p ∉ (discoverStep input_dir acc f).2 := by
  obtain ⟨assets, notes⟩ := acc
  simp only at h1 h2
  simp only [discoverStep]
  by_cases hdot : (!((f.getLastD "").data.contains '.')) = true
  · rw [if_pos hdot]
    exact ⟨h1, h2⟩
  · rw [if_neg hdot]
    by_cases hasset : (ASSET_SUFFIXES.contains (suffixOfName (f.getLastD ""))) = true
    · rw [if_pos hasset]
      refine ⟨?_, h2⟩
      intro hmem
      rcases List.mem_append.mp hmem with hA | hB
      · exact h1 hA
      · have hpf : p = f := List.mem_singleton.mp hB
        rw [← hpf, hmd] at hasset
        exact absurd hasset (by decide)
    · rw [if_neg hasset]
      by_cases hcont : (CONTENT_SUFFIXES.contains (suffixOfName (f.getLastD ""))) = true
      · rw [if_pos hcont]
        by_cases e1 : startsWithMarker (stemOfName ((input_dir ++ f).dropLast.getLastD "")) = true
        · rw [if_pos e1]
          exact ⟨h1, h2⟩
        · rw [if_neg e1]
          by_cases e2 : startsWithMarker (stemOfName (f.getLastD "")) = true
          · rw [if_pos e2]
            exact ⟨h1, h2⟩
          · rw [if_neg e2]
            by_cases e3 : strContains "/config/".data (pathStr (input_dir ++ f)).data = true
            · rw [if_pos e3]
              exact ⟨h1, h2⟩
            · rw [if_neg e3]
              refine ⟨h1, ?_⟩
              intro hmem
              rcases List.mem_append.mp hmem with hA | hB
              · exact h2 hA
              · have hpf : p = f := List.mem_singleton.mp hB
                subst hpf
                rcases hexcl with he | he | he
                · exact e1 he
                · exact e2 he
                · exact e3 he
      · rw [if_neg hcont]
        exact ⟨h1, h2⟩

theorem discover_foldl_excluded (input_dir : List String) (p : List String)
    (hmd : suffixOfName (p.getLastD "") = ".md")
    (hexcl : startsWithMarker (stemOfName ((input_dir ++ p).dropLast.getLastD "")) = true
      ∨ startsWithMarker (stemOfName (p.getLastD "")) = true
      ∨ strContains "/config/".data (pathStr (input_dir ++ p)).data = true) :
    ∀ (files : List (List String)) (acc : List (List String) × List (List String)),
      p ∉ acc.1 → p ∉ acc.2 →
      p ∉ (files.foldl (discoverStep input_dir) acc).1 ∧
        p ∉ (files.foldl (discoverStep input_dir) acc).2 := by
  intro files
  induction files with
  | nil =>
    intro acc h1 h2
    exact ⟨h1, h2⟩
  | cons f fls ih =>
    intro acc h1 h2
    rw [List.foldl_cons]
    obtain ⟨hs1, hs2⟩ := discoverStep_not_mem input_dir p f acc hmd hexcl h1 h2
    exact ih (discoverStep input_dir acc f) hs1 hs2

/-- C7 (amended): the discovery exclusion rules apply only to content
(`.md`) files: a content file whose containing directory's stem starts with
the reserved marker, or whose own stem starts with the marker, or whose
absolute path string contains the `/config/` segment, never appears in the
index — neither among the note keys nor among the asset keys.  Asset files
are indexed without any exclusion check (see the counterexample). -/
theorem discover_excludes_marked_notes (input_dir : List String) (files : List (List String))
    (p : List String)
    (hmd : suffixOfName (p.getLastD "") = ".md")
    (hexcl : startsWithMarker (stemOfName ((input_dir ++ p).dropLast.getLastD "")) = true
      ∨ startsWithMarker (stemOfName (p.getLastD "")) = true
      ∨ strContains "/config/".data (pathStr (input_dir ++ p)).data = true) :
    p ∉ (discover input_dir files).1 ∧ p ∉ (discover input_dir files).2 := by
  unfold discover
  exact discover_foldl_excluded input_dir p hmd hexcl files ([], [])
    (List.not_mem_nil p) (List.not_mem_nil p)

/-- C7 witness: the marker-stem note `notes/_hidden.md` never appears in the
index built from the concrete file list. -/
theorem discover_excludes_witness :
    ["notes", "_hidden.md"] ∉ (discover ["vault"] filesW).1 ∧
    ["notes", "_hidden.md"] ∉ (discover ["vault"] filesW).2 :=
  discover_excludes_marked_notes ["vault"] filesW ["notes", "_hidden.md"] (by decide)
    (Or.inr (Or.inl (by decide)))

/-- C7 counterexample: the asset `_imgs/pic.png` sits in a directory whose
name starts with the reserved marker, yet it is indexed as an asset — the
exclusion rules are not applied to asset files. -/
theorem discover_cex :
    startsWithMarker (stemOfName (((["vault"] ++ ["_imgs", "pic.png"]).dropLast).getLastD ""))
      = true ∧
    ["_imgs", "pic.png"] ∈ (discover ["vault"] filesW).1 :=
  ⟨by decide, by decide⟩

end ObsidianToOrg
